import Mathlib

/-!
Shallow embedding of the receipts repository (Receipt Pool in `src/pool.rs`,
Voucher Aggregator in `src/voucher.rs`), with one theorem per specification
claim.  Byte strings are `List Nat` (each entry a byte value), `U256` values
are `Nat` (the panicking `U256` additions/subtractions of the Rust code are
modelled by returning `none` where Rust would panic), and the secp256k1 /
keccak primitives are opaque parameters collected in a `Crypto` structure,
since their number-theoretic content is irrelevant to every claim.
-/

/-- Little-endian decoding of a byte list (`U256::from_little_endian`,
`u32::from_le_bytes`). Each entry is reduced mod 256 as a `u8` would be. -/
def fromLE : List Nat → Nat
  | [] => 0
  | b :: rest => b % 256 + 256 * fromLE rest

/-- Little-endian encoding into `w` bytes (`U256::to_little_endian`,
`u32::to_le_bytes`). -/
def toLE : Nat → Nat → List Nat
  | 0, _ => []
  | w + 1, n => (n % 256) :: toLE w (n / 256)

/-- Big-endian decoding of a byte list (`U256::from_big_endian`). -/
def fromBE (l : List Nat) : Nat :=
  l.foldl (fun acc b => acc * 256 + b % 256) 0

/-- Big-endian encoding into `w` bytes (`U256::to_big_endian` via
`to_be_bytes` in `src/prelude.rs`). -/
def toBE (w n : Nat) : List Nat :=
  (toLE w n).reverse

@[simp] theorem toLE_length (w n : Nat) : (toLE w n).length = w := by
  induction w generalizing n with
  | zero => rfl
  | succ w ih => simp [toLE, ih]

@[simp] theorem toBE_length (w n : Nat) : (toBE w n).length = w := by
  simp [toBE]

theorem fromLE_toLE (w n : Nat) (h : n < 256 ^ w) : fromLE (toLE w n) = n := by
  induction w generalizing n with
  | zero =>
    have : n = 0 := by simpa using h
    simp [this, toLE, fromLE]
  | succ w ih =>
    have hdiv : n / 256 < 256 ^ w := by
      rw [Nat.div_lt_iff_lt_mul (by norm_num)]
      calc n < 256 ^ (w + 1) := h
        _ = 256 ^ w * 256 := by ring
    simp [toLE, fromLE, ih _ hdiv, Nat.mod_mod_of_dvd, Nat.mod_add_div]

theorem fromLE_lt (l : List Nat) : fromLE l < 256 ^ l.length := by
  induction l with
  | nil => simp [fromLE]
  | cons b rest ih =>
    have hb : b % 256 < 256 := Nat.mod_lt _ (by norm_num)
    simp only [fromLE, List.length_cons, pow_succ]
    calc b % 256 + 256 * fromLE rest
        ≤ 255 + 256 * fromLE rest := by omega
      _ < 256 * (fromLE rest + 1) := by omega
      _ ≤ 256 * 256 ^ rest.length := by
          have : fromLE rest + 1 ≤ 256 ^ rest.length := ih
          exact Nat.mul_le_mul_left _ this
      _ = 256 ^ rest.length * 256 := by ring

theorem fromBE_append (l : List Nat) (b : Nat) :
    fromBE (l ++ [b]) = fromBE l * 256 + b % 256 := by
  simp [fromBE, List.foldl_append]

theorem fromBE_reverse_toLE (l : List Nat) : fromBE l.reverse = fromLE l := by
  induction l with
  | nil => rfl
  | cons b rest ih =>
    simp only [List.reverse_cons, fromBE_append, ih, fromLE]
    ring

theorem fromBE_toBE (w n : Nat) (h : n < 256 ^ w) : fromBE (toBE w n) = n := by
  rw [toBE, fromBE_reverse_toLE, fromLE_toLE w n h]

theorem fromBE_lt (l : List Nat) : fromBE l < 256 ^ l.length := by
  have := fromLE_lt l.reverse
  rw [← fromBE_reverse_toLE, List.reverse_reverse] at this
  simpa using this

set_option maxRecDepth 16384

deriving instance DecidableEq for Except

/-! ## Abstract cryptographic primitives

The concrete hash functions and secp256k1 operations are irrelevant to the
claims; the embedding is parameterized over them.  `sha3` stands for
`tiny_keccak::Sha3::v256` (used by `hash_bytes` in `src/pool.rs`), `keccak`
for `tiny_keccak::Keccak::v256` (used by `src/prelude.rs` and
`src/voucher.rs`) - note the two files use DIFFERENT hash functions.
`signRec` is `Secp256k1::sign_recoverable` returning (64-byte compact
signature, recovery id); `sign` is the (deterministic, RFC 6979) prelude
`sign` used by the voucher aggregator; `parseCompact` is
`secp256k1::Signature::from_compact` abstracted to an opaque token;
`verify` checks a 32-byte message digest against a token and public key;
`pubOf` is `PublicKey::from_secret_key`. -/
structure Crypto where
  sha3 : List Nat → List Nat
  keccak : List Nat → List Nat
  signRec : Nat → List Nat → (List Nat × Nat)
  sign : Nat → List Nat → List Nat
  parseCompact : List Nat → Option Nat
  verify : List Nat → Nat → Nat → Bool
  pubOf : Nat → Nat

/-! ## Receipt Pool (`src/pool.rs`) -/

/-- `PooledReceipt` from `src/pool.rs`. `ReceiptID` is `u32` in the source
tree (documented by the comment in `src/prelude.rs`: "u32 (ReceiptId)"),
modelled as `Nat` kept below `2 ^ 32` by the operations. -/
structure PooledReceipt where
  unlocked_payment : Nat
  receipt_id : Nat
deriving Repr, DecidableEq

/-- `Transfer` from `src/pool.rs`: collateral, monotonic receipt-id source,
recyclable receipt cache, signing key and 32-byte vector transfer id. -/
structure Transfer where
  collateral : Nat
  prev_receipt_id : Nat
  receipt_cache : List PooledReceipt
  signer : Nat
  vector_transfer_id : List Nat
deriving Repr, DecidableEq

/-- `ReceiptPool` from `src/pool.rs`. -/
structure ReceiptPool where
  transfers : List Transfer
deriving Repr, DecidableEq

inductive QueryStatus where
  | success
  | failure
  | unknown
deriving Repr, DecidableEq

inductive BorrowFail where
  | insufficientCollateral
deriving Repr, DecidableEq

/-- `u32::MAX`, the value at which `prev_receipt_id.checked_add(1)` fails. -/
def u32Max : Nat := 4294967295

/-- `2 ^ 256`, the number of `U256` values. -/
def u256Size : Nat := 2 ^ 256

/-- Wire-layout offsets of `src/pool.rs`:
`[vector_transfer_id (32) | payment_amount (32) | receipt_id (4) |
signature (65) | unlocked_payment (32)]`, hence
`BORROWED_RECEIPT_LEN = 165`. -/
def BORROWED_RECEIPT_LEN : Nat := 32 + 32 + 4 + 65 + 32

/-- `ReceiptPool::add_transfer`: silent no-op when a transfer with the same
`vector_transfer_id` is already installed, otherwise pushes a fresh
`Transfer` with empty cache and zeroed `prev_receipt_id`. -/
def addTransfer (signer collateral : Nat) (vector_transfer_id : List Nat)
    (p : ReceiptPool) : ReceiptPool :=
  if p.transfers.any (fun t => t.vector_transfer_id == vector_transfer_id) then p
  else
    { transfers := p.transfers ++
        [{ collateral := collateral, prev_receipt_id := 0, receipt_cache := [],
           signer := signer, vector_transfer_id := vector_transfer_id }] }

/-- The loop body of `ReceiptPool::select_transfer`, recursing over the
remaining transfers with the index `k` of the current element and the
currently selected (index, transfer) pair. -/
def selectFrom (fee : Nat) : List Transfer → Nat → Option (Nat × Transfer) →
    Option (Nat × Transfer)
  | [], _, acc => acc
  | t :: rest, k, acc =>
    if t.collateral < fee then selectFrom fee rest (k + 1) acc
    else
      match acc with
      | none => selectFrom fee rest (k + 1) (some (k, t))
      | some sel =>
        if sel.2.collateral > t.collateral then selectFrom fee rest (k + 1) (some (k, t))
        else selectFrom fee rest (k + 1) (some sel)

/-- `ReceiptPool::select_transfer`: the transfer with the least collateral
among those with `collateral >= locked_payment` (first such on ties),
returned together with its index. -/
def selectTransfer (ts : List Transfer) (fee : Nat) : Option (Nat × Transfer) :=
  selectFrom fee ts 0 none

/-- Replace the transfer at index `i` (models mutation through the `&mut`
reference that `select_transfer` / `transfer_by_id_mut` return). -/
def setTransfer (p : ReceiptPool) (i : Nat) (t : Transfer) : ReceiptPool :=
  { transfers := p.transfers.set i t }

/-- `Vec::swap_remove(i)`: removes and returns element `i`, moving the last
element into its place; `none` when `i` is out of range (the callers
guarantee it never is). -/
def swapRemove (l : List PooledReceipt) (i : Nat) :
    Option (PooledReceipt × List PooledReceipt) :=
  match l.get? i, l.getLast? with
  | some x, some last => some (x, (l.set i last).dropLast)
  | _, _ => none

/-- The recovery-id normalization table in `ReceiptPool::commit`
(`0 -> 27, 1 -> 28, 27 -> 27, 28 -> 28`, anything else panics - `none`). -/
def normalizeRecovery : Nat → Option Nat
  | 0 => some 27
  | 1 => some 28
  | 27 => some 27
  | 28 => some 28
  | _ => none

/-- The slice `dest[PAYMENT_AMOUNT_RANGE.start..RECEIPT_ID_RANGE.end]`, i.e.
`dest[32..68]`, that `ReceiptPool::commit` hashes and signs.  Note it omits
the leading 32-byte `vector_transfer_id`. -/
def commitSignedSlice (dest : List Nat) : List Nat :=
  (dest.drop 32).take 36

/-- Tail of `ReceiptPool::commit` after the receipt has been obtained:
builds the wire bytes, signs `sha3(dest[32..68])` with the transfer's
signer, normalizes the recovery id and stores the mutated transfer back.
`none` models the two panics on this path: the `U256` overflow of
`receipt.unlocked_payment + locked_payment` and an unexpected recovery
id. -/
def commitFinish (c : Crypto) (p : ReceiptPool) (i : Nat) (t2 : Transfer)
    (r : PooledReceipt) (fee : Nat) :
    Option (Except BorrowFail (List Nat) × ReceiptPool) :=
  if u256Size ≤ r.unlocked_payment + fee then none
  else
    let payment := r.unlocked_payment + fee
    let head := t2.vector_transfer_id ++ toLE 32 payment ++ toLE 4 r.receipt_id
    let signature := c.signRec t2.signer (c.sha3 (commitSignedSlice head))
    match normalizeRecovery signature.2 with
    | none => none
    | some rv =>
      some (.ok (head ++ signature.1 ++ [rv] ++ toLE 32 r.unlocked_payment),
            setTransfer p i t2)

/-- `ReceiptPool::commit`.  `pick` supplies the randomness of
`rng().gen_range(0..receipts.len())` (taken modulo the cache length).  The
result is `none` where Rust panics; otherwise the returned commitment (or
failure) is paired with the resulting pool state, since the Rust method
mutates `self` in place - in particular `transfer.collateral -= locked_payment`
happens BEFORE the `checked_add` failure path can return an error. -/
def commit (c : Crypto) (pick fee : Nat) (p : ReceiptPool) :
    Option (Except BorrowFail (List Nat) × ReceiptPool) :=
  match selectTransfer p.transfers fee with
  | none => some (.error .insufficientCollateral, p)
  | some (i, t0) =>
    let t1 : Transfer := { t0 with collateral := t0.collateral - fee }
    if t1.receipt_cache.length = 0 then
      if t1.prev_receipt_id = u32Max then
        some (.error .insufficientCollateral, setTransfer p i t1)
      else
        commitFinish c p i { t1 with prev_receipt_id := t1.prev_receipt_id + 1 }
          { unlocked_payment := 0, receipt_id := t1.prev_receipt_id + 1 } fee
    else
      match swapRemove t1.receipt_cache (pick % t1.receipt_cache.length) with
      | none => none
      | some (r, rest) =>
        commitFinish c p i { t1 with receipt_cache := rest } r fee

/-- `ReceiptPool::release`.  `none` models the panics of the Rust code: the
`assert_eq!` on the length, the `U256` subtraction underflow
(`payment_amount - unlocked_payment`) and the `U256` addition overflow on
the collateral-return path. -/
def release (bytes : List Nat) (status : QueryStatus) (p : ReceiptPool) :
    Option ReceiptPool :=
  if bytes.length ≠ BORROWED_RECEIPT_LEN then none
  else
    let vid := bytes.take 32
    match p.transfers.findIdx? (fun t => t.vector_transfer_id == vid) with
    | none => some p
    | some i =>
      match p.transfers.get? i with
      | none => none
      | some t =>
        let payment := fromLE ((bytes.drop 32).take 32)
        let unlocked := fromLE ((bytes.drop 133).take 32)
        if payment < unlocked then none
        else
          let locked := payment - unlocked
          let rid := fromLE ((bytes.drop 64).take 4)
          match status with
          | .unknown => some p
          | .success =>
            some (setTransfer p i
              { t with receipt_cache :=
                  t.receipt_cache ++ [{ unlocked_payment := unlocked + locked,
                                        receipt_id := rid }] })
          | .failure =>
            if u256Size ≤ t.collateral + locked then none
            else
              some (setTransfer p i
                { t with collateral := t.collateral + locked,
                         receipt_cache :=
                           t.receipt_cache ++ [{ unlocked_payment := unlocked,
                                                 receipt_id := rid }] })

/-! ## Voucher Aggregator (`src/voucher.rs`) -/

inductive VoucherError where
  | invalidData
  | invalidSignature
  | unorderedReceipts
  | unorderedPartialVouchers
  | noValue
deriving Repr, DecidableEq

/-- `Voucher` from `src/voucher.rs`. -/
structure Voucher where
  allocation_id : List Nat
  fees : Nat
  signature : List Nat
deriving Repr, DecidableEq

/-- `PartialVoucher` from `src/voucher.rs`: a voucher plus the inclusive
15-byte receipt-id bounds of the sub-range it summarizes. -/
structure PartialVoucher where
  voucher : Voucher
  receipt_id_min : List Nat
  receipt_id_max : List Nat
deriving Repr, DecidableEq

/-- One parsed receipt record of the aggregator's input stream:
`[total_fee (32, big-endian) | receipt_id (15) | signature (65)]`,
`SIZE = 112` bytes. -/
structure RawReceipt where
  fees : Nat
  rid : List Nat
  rsig : List Nat
deriving Repr, DecidableEq

/-- The record size `SIZE` of `src/voucher.rs` (112 bytes). -/
def RECORD_SIZE : Nat := 32 + 15 + 65

/-- The `Receipts` iterator of `src/voucher.rs`, with explicit fuel (an
upper bound on the number of remaining records) so that the definition is
structurally recursive and computes by kernel reduction.  Each step
consumes one 112-byte record, decoding `fees` big-endian. -/
def recordsGo : Nat → List Nat → List RawReceipt
  | 0, _ => []
  | fuel + 1, data =>
    if data.length = 0 then []
    else
      { fees := fromBE (data.take 32),
        rid := (data.drop 32).take 15,
        rsig := (data.drop 47).take 65 } :: recordsGo fuel (data.drop 112)

/-- The `Receipts` iterator of `src/voucher.rs`: splits the byte stream into
consecutive 112-byte records (the buffer length bounds the record count, so
it serves as the fuel). -/
def records (data : List Nat) : List RawReceipt :=
  recordsGo data.length data

theorem recordsGo_nil (fuel : Nat) : recordsGo fuel [] = [] := by
  cases fuel <;> simp [recordsGo]

theorem recordsGo_congr : ∀ {fuel fuel' : Nat} {data : List Nat},
    data.length ≤ fuel → data.length ≤ fuel' →
    recordsGo fuel data = recordsGo fuel' data := by
  intro fuel
  induction fuel with
  | zero =>
    intro fuel' data h _
    have : data = [] := List.length_eq_zero.mp (Nat.le_zero.mp h)
    subst this
    rw [recordsGo_nil, recordsGo_nil]
  | succ fuel ih =>
    intro fuel' data h h'
    cases data with
    | nil => rw [recordsGo_nil, recordsGo_nil]
    | cons a l =>
      cases fuel' with
      | zero => simp at h'
      | succ fuel' =>
        simp only [recordsGo, List.length_cons]
        have hdrop : ((a :: l).drop 112).length ≤ fuel := by
          simp only [List.length_drop, List.length_cons] at *
          omega
        have hdrop' : ((a :: l).drop 112).length ≤ fuel' := by
          simp only [List.length_drop, List.length_cons] at *
          omega
        rw [ih hdrop hdrop']

/-- The one-step unfolding of the `Receipts` iterator. -/
theorem records_eq (data : List Nat) :
    records data =
      if data.length = 0 then []
      else
        { fees := fromBE (data.take 32),
          rid := (data.drop 32).take 15,
          rsig := (data.drop 47).take 65 } :: records (data.drop 112) := by
  cases data with
  | nil => simp [records, recordsGo]
  | cons a l =>
    simp only [records, List.length_cons, recordsGo,
      Nat.succ_ne_zero, if_neg]
    have hdrop : ((a :: l).drop 112).length ≤ l.length := by
      simp only [List.length_drop, List.length_cons]
      omega
    rw [recordsGo_congr hdrop (Nat.le_refl _)]

/-- Lexicographic `<` on byte arrays - the derived `Ord` of `[u8; 15]`. -/
def bytesLt : List Nat → List Nat → Bool
  | [], [] => false
  | [], _ :: _ => true
  | _ :: _, [] => false
  | a :: as, b :: bs => a < b || (a == b && bytesLt as bs)

/-- The `tuple_windows` strict-ascending check used both on receipt ids
(`verify_receipts`) and on partial-voucher range limits
(`combine_partial_vouchers`). -/
def ascendBytes : List (List Nat) → Bool
  | [] => true
  | [_] => true
  | a :: b :: rest => bytesLt a b && ascendBytes (b :: rest)

/-- `U256::MAX`, the saturation bound of `saturating_add`. -/
def u256Max : Nat := 2 ^ 256 - 1

/-- `U256::saturating_add`. -/
def satAdd (a b : Nat) : Nat := min (a + b) u256Max

/-- The fee-summation fold of `verify_receipts`:
`fold(U256::zero(), |sum, fees| sum.saturating_add(fees))`. -/
def satSum (rs : List RawReceipt) : Nat :=
  rs.foldl (fun s r => satAdd s r.fees) 0

/-- The signature-verification loop of `verify_receipts`: for each record,
the compact part of its signature must parse (`InvalidData` otherwise) and
verify against the allocation public key over
`keccak256(allocation_id ++ total_fee_be ++ receipt_id)`
(`InvalidSignature` otherwise). -/
def checkSigs (c : Crypto) (aid : List Nat) (apk : Nat) :
    List RawReceipt → Except VoucherError Unit
  | [] => .ok ()
  | r :: rest =>
    match c.parseCompact (r.rsig.take 64) with
    | none => .error .invalidData
    | some tok =>
      if c.verify (c.keccak (aid ++ toBE 32 r.fees ++ r.rid)) tok apk then
        checkSigs c aid apk rest
      else .error .invalidSignature

/-- `verify_receipts` from `src/voucher.rs`. -/
def verify_receipts (c : Crypto) (aid : List Nat) (apk : Nat)
    (data : List Nat) : Except VoucherError Nat :=
  if data.length % RECORD_SIZE ≠ 0 then .error .invalidData
  else if ascendBytes ((records data).map (fun r => r.rid)) = false then
    .error .unorderedReceipts
  else
    match checkSigs c aid apk (records data) with
    | .error e => .error e
    | .ok () =>
      if satSum (records data) = 0 then .error .noValue
      else .ok (satSum (records data))

/-- `receipts_to_voucher` from `src/voucher.rs`: verifies, then signs
`allocation_id ++ fees_be` with the voucher signer. -/
def receipts_to_voucher (c : Crypto) (aid : List Nat) (apk vsk : Nat)
    (data : List Nat) : Except VoucherError Voucher :=
  match verify_receipts c aid apk data with
  | .error e => .error e
  | .ok fees =>
    .ok { allocation_id := aid, fees := fees,
          signature := c.sign vsk (aid ++ toBE 32 fees) }

/-- `receipts_to_partial_voucher` from `src/voucher.rs`: additionally signs
the first and last record's receipt id into the message.  The Rust code
unwraps the first/last record; that unwrap is unreachable after a
successful `verify_receipts` (empty input fails with `NoValue`), so the
fallback arm here is dead code. -/
def receipts_to_partial_voucher (c : Crypto) (aid : List Nat) (apk vsk : Nat)
    (data : List Nat) : Except VoucherError PartialVoucher :=
  match verify_receipts c aid apk data with
  | .error e => .error e
  | .ok fees =>
    match (records data).head?, (records data).getLast? with
    | some first, some last =>
      .ok { voucher :=
              { allocation_id := aid, fees := fees,
                signature := c.sign vsk
                  (aid ++ toBE 32 fees ++ first.rid ++ last.rid) },
            receipt_id_min := first.rid, receipt_id_max := last.rid }
    | _, _ => .error .noValue

/-- The flattened `[min_1, max_1, min_2, max_2, ...]` limit sequence whose
strict ascent `combine_partial_vouchers` checks. -/
def pvLimits (pvs : List PartialVoucher) : List (List Nat) :=
  pvs.flatMap (fun pv => [pv.receipt_id_min, pv.receipt_id_max])

/-- The signature-verification loop of `combine_partial_vouchers`: each
partial voucher's signature must parse and verify against the
voucher-signing public key over
`keccak256(allocation_id ++ fees_be ++ receipt_id_min ++ receipt_id_max)`. -/
def checkPartialSigs (c : Crypto) (aid : List Nat) (vpk : Nat) :
    List PartialVoucher → Except VoucherError Unit
  | [] => .ok ()
  | pv :: rest =>
    match c.parseCompact (pv.voucher.signature.take 64) with
    | none => .error .invalidData
    | some tok =>
      if c.verify
          (c.keccak (aid ++ toBE 32 pv.voucher.fees ++ pv.receipt_id_min ++
                     pv.receipt_id_max)) tok vpk then
        checkPartialSigs c aid vpk rest
      else .error .invalidSignature

/-- The fee-summation fold of `combine_partial_vouchers`. -/
def pvSum (pvs : List PartialVoucher) : Nat :=
  pvs.foldl (fun s pv => satAdd s pv.voucher.fees) 0

/-- `combine_partial_vouchers` from `src/voucher.rs`. -/
def combine_partial_vouchers (c : Crypto) (aid : List Nat) (vsk : Nat)
    (pvs : List PartialVoucher) : Except VoucherError Voucher :=
  if pvs.length = 0 then .error .noValue
  else if ascendBytes (pvLimits pvs) = false then
    .error .unorderedPartialVouchers
  else
    match checkPartialSigs c aid (c.pubOf vsk) pvs with
    | .error e => .error e
    | .ok () =>
      if pvSum pvs = 0 then .error .noValue
      else
        .ok { allocation_id := aid, fees := pvSum pvs,
              signature := c.sign vsk (aid ++ toBE 32 (pvSum pvs)) }

/-! ## Concrete fixtures

A trivial `Crypto` instance used by closed witness/counterexample theorems:
`sha3` is the identity, `keccak` prepends a byte (so the two hash functions
are distinguishable), `signRec` returns its message with recovery id 0,
`sign` returns its message, every compact signature parses and every
verification succeeds. -/
def cTriv : Crypto :=
  { sha3 := fun l => l
    keccak := fun l => 0 :: l
    signRec := fun _ m => (m, 0)
    sign := fun _ m => m
    parseCompact := fun _ => some 0
    verify := fun _ _ _ => Bool.true
    pubOf := fun k => k }

/-- A transfer one `commit` away from receipt-id exhaustion: collateral 5,
`prev_receipt_id = u32::MAX`, empty cache. -/
def tOv : Transfer :=
  { collateral := 5, prev_receipt_id := u32Max, receipt_cache := [],
    signer := 0, vector_transfer_id := List.replicate 32 7 }

def poolOv : ReceiptPool := { transfers := [tOv] }

/-- `poolOv` after the failing `commit` of fee 3: collateral already
decremented to 2, everything else untouched. -/
def poolOvAfter : ReceiptPool :=
  { transfers := [{ collateral := 2, prev_receipt_id := u32Max,
                    receipt_cache := [], signer := 0,
                    vector_transfer_id := List.replicate 32 7 }] }

/-- Concrete 20-byte allocation id for the voucher fixtures. -/
def aidC : List Nat := List.replicate 20 1

/-- A single 112-byte receipt record: fee 1 (big-endian), receipt id
fifteen zero bytes, signature sixty-five zero bytes. -/
def batchSingle : List Nat :=
  toBE 32 1 ++ List.replicate 15 0 ++ List.replicate 65 0

/-- The partial voucher `receipts_to_partial_voucher` produces from
`batchSingle` under `cTriv` (its min and max receipt ids coincide). -/
def pvSingleC : PartialVoucher :=
  { voucher :=
      { allocation_id := aidC, fees := 1,
        signature := aidC ++ toBE 32 1 ++ List.replicate 15 0 ++
                     List.replicate 15 0 },
    receipt_id_min := List.replicate 15 0,
    receipt_id_max := List.replicate 15 0 }

/-! ## Claim theorems -/

/-- C9: `add_transfer` is idempotent in the transfer id: adding an id that
is already present leaves the pool unchanged (even when the supplied
collateral or signer differ), and adding an absent id appends exactly one
new transfer with the given signer and collateral, an empty receipt cache
and a zeroed receipt-id counter. -/
theorem add_transfer_idempotent (signer collateral : Nat) (vid : List Nat)
    (p : ReceiptPool) :
    ((∃ t ∈ p.transfers, t.vector_transfer_id = vid) →
      addTransfer signer collateral vid p = p) ∧
    ((∀ t ∈ p.transfers, t.vector_transfer_id ≠ vid) →
      addTransfer signer collateral vid p =
        { transfers := p.transfers ++
            [{ collateral := collateral, prev_receipt_id := 0,
               receipt_cache := [], signer := signer,
               vector_transfer_id := vid }] }) := by
  constructor
  · rintro ⟨t, ht, he⟩
    have hany : p.transfers.any (fun t => t.vector_transfer_id == vid) = true := by
      rw [List.any_eq_true]
      exact ⟨t, ht, by simpa using he⟩
    simp [addTransfer, hany]
  · intro h
    have hany : p.transfers.any (fun t => t.vector_transfer_id == vid) = false := by
      rw [List.any_eq_false]
      intro t ht
      simpa using h t ht
    simp [addTransfer, hany]

theorem add_transfer_idempotent_witness :
    addTransfer 9 99 [7] { transfers := [tOv] } ≠ { transfers := [tOv] } ∧
    addTransfer 9 99 (List.replicate 32 7) { transfers := [tOv] } =
      { transfers := [tOv] } := by
  refine ⟨?_, (add_transfer_idempotent 9 99 (List.replicate 32 7)
    { transfers := [tOv] }).1 ⟨tOv, by simp, by decide⟩⟩
  have h2 := (add_transfer_idempotent 9 99 [7] { transfers := [tOv] }).2
    (by decide)
  rw [h2]
  decide

/-- C10: `release` begins with `assert_eq!(bytes.len(), BORROWED_RECEIPT_LEN)`
(165 bytes): on every byte slice of any other length it panics (modelled as
`none`) instead of returning or signalling a typed error. -/
theorem release_length_assertion (bytes : List Nat) (st : QueryStatus)
    (p : ReceiptPool) (h : bytes.length ≠ BORROWED_RECEIPT_LEN) :
    release bytes st p = none ∧ BORROWED_RECEIPT_LEN = 165 := by
  exact ⟨by simp [release, h], rfl⟩

theorem release_length_assertion_witness :
    release [0] QueryStatus.unknown { transfers := [] } = none :=
  (release_length_assertion [0] QueryStatus.unknown { transfers := [] }
    (by decide)).1

/-- C4: `release` on a (well-sized) commitment whose transfer id matches no
installed transfer is a no-op: the pool state after the call is exactly the
state before it, for every outcome value. -/
theorem release_unknown_allocation_noop (bytes : List Nat) (st : QueryStatus)
    (p : ReceiptPool) (hlen : bytes.length = BORROWED_RECEIPT_LEN)
    (habs : ∀ t ∈ p.transfers, t.vector_transfer_id ≠ bytes.take 32) :
    release bytes st p = some p := by
  have hf : p.transfers.findIdx? (fun t => t.vector_transfer_id == bytes.take 32)
      = none := by
    rw [List.findIdx?_eq_none_iff]
    intro t ht
    simpa using habs t ht
  simp [release, hlen, hf]

theorem release_unknown_allocation_noop_witness :
    release (List.replicate 165 3) QueryStatus.failure poolOv = some poolOv :=
  release_unknown_allocation_noop (List.replicate 165 3) QueryStatus.failure
    poolOv (by decide) (by decide)

/-- C2 counterexample: `commit` on a pool holding one eligible transfer
whose receipt-id counter is exhausted (`prev_receipt_id = u32::MAX`, empty
cache) returns the `InsufficientCollateral` failure with the pool already
mutated: the selected transfer's collateral was decremented from 5 to 2
before the `checked_add` failure path returned. -/
theorem commit_error_mutation_counterexample :
    commit cTriv 0 3 poolOv =
      some (.error .insufficientCollateral, poolOvAfter) ∧
    poolOvAfter ≠ poolOv := by decide

/-- C2 amended: `commit` leaves the pool unchanged when it fails because no
transfer has `collateral >= locked_fee`; on the receipt-id-exhaustion
failure path (selected transfer with empty cache and
`prev_receipt_id = u32::MAX`) it also returns `InsufficientCollateral`, but
with the selected transfer's collateral already decremented by the fee. -/
theorem commit_failure_paths (c : Crypto) (pick fee : Nat) (p : ReceiptPool) :
    (selectTransfer p.transfers fee = none →
      commit c pick fee p = some (.error .insufficientCollateral, p)) ∧
    (∀ i t, selectTransfer p.transfers fee = some (i, t) →
      t.receipt_cache = [] → t.prev_receipt_id = u32Max →
      commit c pick fee p = some (.error .insufficientCollateral,
        setTransfer p i { t with collateral := t.collateral - fee })) := by
  constructor
  · intro h
    simp [commit, h]
  · intro i t h hc hp
    simp [commit, h, hc, hp]

theorem commit_failure_paths_witness :
    commit cTriv 0 9 { transfers := [] } =
      some (.error .insufficientCollateral, { transfers := [] }) ∧
    commit cTriv 0 3 poolOv =
      some (.error .insufficientCollateral,
        setTransfer poolOv 0 { tOv with collateral := tOv.collateral - 3 }) :=
  ⟨(commit_failure_paths cTriv 0 9 { transfers := [] }).1 rfl,
   (commit_failure_paths cTriv 0 3 poolOv).2 0 tOv (by decide) rfl rfl⟩

/-- C7: the repository's own test `partial_vouchers_combine_single` expects
a single-receipt partial voucher (whose `receipt_id_min` equals its
`receipt_id_max` - a valid range under the `min <= max` criterion) to
combine successfully, but `combine_partial_vouchers` checks the flattened
limit sequence `[min, max, ...]` with the STRICT comparison `a < b` and
therefore rejects it with `UnorderedPartialVouchers`. -/
theorem combine_rejects_singleton_range :
    receipts_to_partial_voucher cTriv aidC 2 3 batchSingle = .ok pvSingleC ∧
    pvSingleC.receipt_id_min = pvSingleC.receipt_id_max ∧
    combine_partial_vouchers cTriv aidC 3 [pvSingleC] =
      .error .unorderedPartialVouchers := by decide

/-- C8 counterexample: for the one-batch partition of a single-receipt
sequence, `receipts_to_partial_voucher` succeeds and `receipts_to_voucher`
on the concatenation succeeds, but combining the partial vouchers does not
produce that voucher - it fails with `UnorderedPartialVouchers` (the strict
range check rejects `min = max`). -/
theorem combine_singleton_partition_counterexample :
    receipts_to_partial_voucher cTriv aidC 2 3 batchSingle = .ok pvSingleC ∧
    receipts_to_voucher cTriv aidC 2 3 batchSingle =
      .ok { allocation_id := aidC, fees := 1,
            signature := aidC ++ toBE 32 1 } ∧
    combine_partial_vouchers cTriv aidC 3 [pvSingleC] =
      .error .unorderedPartialVouchers := by decide

/-! ## Selection correctness (claim C1) -/

theorem selectFrom_none_iff (fee : Nat) :
    ∀ (ts : List Transfer) (k : Nat) (acc : Option (Nat × Transfer)),
      selectFrom fee ts k acc = none ↔
        (acc = none ∧ ∀ t ∈ ts, t.collateral < fee) := by
  intro ts
  induction ts with
  | nil => intro k acc; simp [selectFrom]
  | cons t rest ih =>
    intro k acc
    by_cases hlt : t.collateral < fee
    · simp only [selectFrom]
      rw [if_pos hlt, ih]
      constructor
      · rintro ⟨ha, hr⟩
        refine ⟨ha, ?_⟩
        intro v hv
        rcases List.mem_cons.mp hv with rfl | hv'
        · exact hlt
        · exact hr v hv'
      · rintro ⟨ha, hr⟩
        exact ⟨ha, fun v hv => hr v (List.mem_cons_of_mem _ hv)⟩
    · cases acc with
      | none =>
        simp only [selectFrom]
        rw [if_neg hlt, ih]
        constructor
        · rintro ⟨h, -⟩
          simp at h
        · rintro ⟨-, hr⟩
          exact absurd (hr t (List.mem_cons_self _ _)) hlt
      | some sel =>
        by_cases hcmp : sel.2.collateral > t.collateral
        · simp only [selectFrom]
          rw [if_neg hlt, if_pos hcmp, ih]
          constructor
          · rintro ⟨h, -⟩
            simp at h
          · rintro ⟨h, -⟩
            simp at h
        · simp only [selectFrom]
          rw [if_neg hlt, if_neg hcmp, ih]
          constructor
          · rintro ⟨h, -⟩
            simp at h
          · rintro ⟨h, -⟩
            simp at h

theorem selectFrom_some (fee : Nat) :
    ∀ (ts : List Transfer) (k : Nat) (acc : Option (Nat × Transfer))
      (j : Nat) (u : Transfer),
      selectFrom fee ts k acc = some (j, u) →
      (acc = some (j, u) ∨
        ∃ m, ts.get? m = some u ∧ j = k + m ∧ fee ≤ u.collateral) ∧
      (∀ t ∈ ts, fee ≤ t.collateral → u.collateral ≤ t.collateral) ∧
      (∀ j' u', acc = some (j', u') → u.collateral ≤ u'.collateral) := by
  intro ts
  induction ts with
  | nil =>
    intro k acc j u h
    simp only [selectFrom] at h
    refine ⟨Or.inl h, by simp, ?_⟩
    rintro j' u' rfl
    cases h
    exact Nat.le_refl _
  | cons t rest ih =>
    intro k acc j u h
    by_cases hlt : t.collateral < fee
    · simp only [selectFrom] at h
      rw [if_pos hlt] at h
      obtain ⟨hmem, hmin, hcmpa⟩ := ih (k + 1) acc j u h
      refine ⟨?_, ?_, hcmpa⟩
      · rcases hmem with ha | ⟨m, hget, hj, hfee⟩
        · exact Or.inl ha
        · exact Or.inr ⟨m + 1, by simpa using hget, by omega, hfee⟩
      · intro v hv hfv
        rcases List.mem_cons.mp hv with rfl | hv'
        · exact absurd hfv (by omega)
        · exact hmin v hv' hfv
    · have hge : fee ≤ t.collateral := Nat.le_of_not_lt hlt
      cases acc with
      | none =>
        simp only [selectFrom] at h
        rw [if_neg hlt] at h
        obtain ⟨hmem, hmin, hcmpa⟩ := ih (k + 1) (some (k, t)) j u h
        refine ⟨?_, ?_, by simp⟩
        · rcases hmem with ha | ⟨m, hget, hj, hfee⟩
          · obtain ⟨rfl, rfl⟩ : k = j ∧ t = u := by
              cases ha; exact ⟨rfl, rfl⟩
            exact Or.inr ⟨0, by simp, by omega, hge⟩
          · exact Or.inr ⟨m + 1, by simpa using hget, by omega, hfee⟩
        · intro v hv hfv
          rcases List.mem_cons.mp hv with rfl | hv'
          · exact hcmpa k v rfl
          · exact hmin v hv' hfv
      | some sel =>
        by_cases hcmp : sel.2.collateral > t.collateral
        · simp only [selectFrom] at h
          rw [if_neg hlt, if_pos hcmp] at h
          obtain ⟨hmem, hmin, hcmpa⟩ := ih (k + 1) (some (k, t)) j u h
          have hut : u.collateral ≤ t.collateral := hcmpa k t rfl
          refine ⟨?_, ?_, ?_⟩
          · rcases hmem with ha | ⟨m, hget, hj, hfee⟩
            · obtain ⟨rfl, rfl⟩ : k = j ∧ t = u := by
                cases ha; exact ⟨rfl, rfl⟩
              exact Or.inr ⟨0, by simp, by omega, hge⟩
            · exact Or.inr ⟨m + 1, by simpa using hget, by omega, hfee⟩
          · intro v hv hfv
            rcases List.mem_cons.mp hv with rfl | hv'
            · exact hut
            · exact hmin v hv' hfv
          · rintro j' u' ⟨rfl, rfl⟩
            exact Nat.le_of_lt (Nat.lt_of_le_of_lt hut hcmp)
        · simp only [selectFrom] at h
          rw [if_neg hlt, if_neg hcmp] at h
          obtain ⟨hmem, hmin, hcmpa⟩ := ih (k + 1) (some sel) j u h
          have hus : u.collateral ≤ sel.2.collateral := hcmpa sel.1 sel.2 rfl
          refine ⟨?_, ?_, ?_⟩
          · rcases hmem with ha | ⟨m, hget, hj, hfee⟩
            · exact Or.inl ha
            · exact Or.inr ⟨m + 1, by simpa using hget, by omega, hfee⟩
          · intro v hv hfv
            rcases List.mem_cons.mp hv with rfl | hv'
            · exact Nat.le_trans hus (Nat.le_of_not_lt hcmp)
            · exact hmin v hv' hfv
          · rintro j' u' ⟨rfl, rfl⟩
            exact hus

/-- C1: `select_transfer` fails exactly when no transfer has
`collateral >= locked_fee`, and on success returns an installed transfer
that is eligible (`collateral >= locked_fee`) and has minimal collateral
among all eligible transfers. -/
theorem select_transfer_min_correct (ts : List Transfer) (fee : Nat) :
    (selectTransfer ts fee = none ↔ ∀ t ∈ ts, t.collateral < fee) ∧
    (∀ i t, selectTransfer ts fee = some (i, t) →
      ts.get? i = some t ∧ fee ≤ t.collateral ∧
      ∀ u ∈ ts, fee ≤ u.collateral → t.collateral ≤ u.collateral) := by
  constructor
  · have h := selectFrom_none_iff fee ts 0 none
    simpa [selectTransfer] using h
  · intro i t h
    obtain ⟨hmem, hmin, -⟩ := selectFrom_some fee ts 0 none i t h
    rcases hmem with ha | ⟨m, hget, hj, hfee⟩
    · exact absurd ha (by simp)
    · have : i = m := by omega
      subst this
      exact ⟨hget, hfee, hmin⟩

/-- Transfers with collateral 4 and 3, as in the spec's concrete scenario. -/
def tA : Transfer :=
  { collateral := 4, prev_receipt_id := 0, receipt_cache := [], signer := 0,
    vector_transfer_id := [1] }

def tB : Transfer :=
  { collateral := 3, prev_receipt_id := 0, receipt_cache := [], signer := 0,
    vector_transfer_id := [2] }

theorem select_transfer_min_correct_witness :
    selectTransfer [tA, tB] 3 = some (1, tB) ∧
    (∀ u ∈ [tA, tB], 3 ≤ u.collateral → tB.collateral ≤ u.collateral) ∧
    selectTransfer [tA, tB] 5 = none ∧ tA.collateral < 5 := by
  refine ⟨by decide, ((select_transfer_min_correct [tA, tB] 3).2 1 tB
    (by decide)).2.2, ?_, by decide⟩
  exact (select_transfer_min_correct [tA, tB] 5).1.mpr (by decide)

/-! ## Release semantics (claims C3, C4) -/

theorem pow256_32 : 256 ^ 32 = 2 ^ 256 := by norm_num

theorem pow256_4 : 256 ^ 4 = 2 ^ 32 := by norm_num

/-- C3: for a commitment whose transfer is installed, `release` with
`Success` recycles a receipt carrying the full `total_fee` as its unlocked
payment and leaves collateral unchanged; with `Failure` it returns
`total_fee - unlocked_fee` to the transfer's collateral and recycles a
receipt carrying the prior `unlocked_fee`; with `Unknown` it changes
nothing - the receipt is dropped and no collateral is recovered.  In each
case the locked amount is moved whole (into the receipt, into collateral,
or forfeited): no fee value is created or destroyed. -/
theorem release_outcome_semantics (vid sig : List Nat)
    (total unlocked rid i : Nat) (t : Transfer) (p : ReceiptPool)
    (hv : vid.length = 32) (hs : sig.length = 65)
    (htotal : total < u256Size) (hrid : rid < 2 ^ 32)
    (hur : unlocked ≤ total)
    (hfind : p.transfers.findIdx? (fun u => u.vector_transfer_id == vid) = some i)
    (hget : p.transfers.get? i = some t)
    (hcol : t.collateral + (total - unlocked) < u256Size) :
    release (vid ++ (toLE 32 total ++ (toLE 4 rid ++ (sig ++ toLE 32 unlocked))))
        QueryStatus.success p =
      some (setTransfer p i
        { t with receipt_cache := t.receipt_cache ++
            [{ unlocked_payment := total, receipt_id := rid }] }) ∧
    release (vid ++ (toLE 32 total ++ (toLE 4 rid ++ (sig ++ toLE 32 unlocked))))
        QueryStatus.failure p =
      some (setTransfer p i
        { t with collateral := t.collateral + (total - unlocked),
                 receipt_cache := t.receipt_cache ++
                   [{ unlocked_payment := unlocked, receipt_id := rid }] }) ∧
    release (vid ++ (toLE 32 total ++ (toLE 4 rid ++ (sig ++ toLE 32 unlocked))))
        QueryStatus.unknown p = some p := by
  set bytes := vid ++ (toLE 32 total ++ (toLE 4 rid ++ (sig ++ toLE 32 unlocked)))
    with hbytes
  have hlen : bytes.length = BORROWED_RECEIPT_LEN := by
    simp [hbytes, BORROWED_RECEIPT_LEN, hv, hs]
  have hne : ¬ (bytes.length ≠ BORROWED_RECEIPT_LEN) := by
    simp [hlen]
  have htake : bytes.take 32 = vid := by
    rw [hbytes, List.take_left' hv]
  have hpay : fromLE ((bytes.drop 32).take 32) = total := by
    rw [hbytes, List.drop_left' hv, List.take_left' (by simp)]
    exact fromLE_toLE 32 total (by rw [pow256_32]; exact htotal)
  have hassoc64 : bytes = (vid ++ toLE 32 total) ++
      (toLE 4 rid ++ (sig ++ toLE 32 unlocked)) := by
    rw [hbytes, List.append_assoc]
  have hrid64 : fromLE ((bytes.drop 64).take 4) = rid := by
    rw [hassoc64, List.drop_left' (by simp [hv]), List.take_left' (by simp)]
    exact fromLE_toLE 4 rid (by rw [pow256_4]; exact hrid)
  have hassoc133 : bytes = ((vid ++ toLE 32 total) ++ (toLE 4 rid ++ sig)) ++
      toLE 32 unlocked := by
    rw [hbytes]
    simp only [List.append_assoc]
  have hunl : fromLE ((bytes.drop 133).take 32) = unlocked := by
    rw [hassoc133, List.drop_left' (by simp [hv, hs]),
      List.take_of_length_le (Nat.le_of_eq (toLE_length 32 unlocked))]
    exact fromLE_toLE 32 unlocked
      (by rw [pow256_32]; exact Nat.lt_of_le_of_lt hur htotal)
  have hnotlt : ¬ (total < unlocked) := by omega
  have hnof : ¬ (u256Size ≤ t.collateral + (total - unlocked)) := by omega
  have hadd : unlocked + (total - unlocked) = total := by omega
  refine ⟨?_, ?_, ?_⟩ <;>
    simp only [release, if_neg hne, htake, hfind, hget, hpay, hunl, hrid64,
      if_neg hnotlt, if_neg hnof, hadd]

theorem release_outcome_semantics_witness :
    release (List.replicate 32 7 ++ toLE 32 3 ++ toLE 4 2 ++
        List.replicate 65 0 ++ toLE 32 1) QueryStatus.failure poolOv =
      some (setTransfer poolOv 0
        { tOv with collateral := tOv.collateral + (3 - 1),
                   receipt_cache := tOv.receipt_cache ++
                     [{ unlocked_payment := 1, receipt_id := 2 }] }) ∧
    release (List.replicate 32 7 ++ toLE 32 3 ++ toLE 4 2 ++
        List.replicate 65 0 ++ toLE 32 1) QueryStatus.unknown poolOv =
      some poolOv := by
  have h := release_outcome_semantics (List.replicate 32 7)
    (List.replicate 65 0) 3 1 2 0 tOv poolOv (by decide) (by decide)
    (by decide) (by decide) (by decide) (by decide) (by decide) (by decide)
  exact ⟨h.2.1, h.2.2⟩

/-! ## Voucher verification characterization (claim C5) -/

theorem checkSigs_ok_iff (c : Crypto) (aid : List Nat) (apk : Nat) :
    ∀ rs : List RawReceipt,
      checkSigs c aid apk rs = .ok () ↔
        ∀ r ∈ rs, ∃ tok, c.parseCompact (r.rsig.take 64) = some tok ∧
          c.verify (c.keccak (aid ++ toBE 32 r.fees ++ r.rid)) tok apk = true := by
  intro rs
  induction rs with
  | nil => simp [checkSigs]
  | cons r rest ih =>
    cases hp : c.parseCompact (r.rsig.take 64) with
    | none =>
      simp only [checkSigs, hp]
      constructor
      · intro h
        exact absurd h (by simp)
      · intro h
        obtain ⟨tok, htok, -⟩ := h r (List.mem_cons_self _ _)
        rw [hp] at htok
        cases htok
    | some tok =>
      by_cases hv : c.verify (c.keccak (aid ++ toBE 32 r.fees ++ r.rid)) tok apk = true
      · simp only [checkSigs, hp, if_pos hv, ih]
        constructor
        · intro h v hv'
          rcases List.mem_cons.mp hv' with rfl | hv''
          · exact ⟨tok, hp, hv⟩
          · exact h v hv''
        · intro h v hv'
          exact h v (List.mem_cons_of_mem _ hv')
      · simp only [checkSigs, hp, if_neg hv]
        constructor
        · intro h
          exact absurd h (by simp)
        · intro h
          obtain ⟨tok', htok', hver'⟩ := h r (List.mem_cons_self _ _)
          rw [hp] at htok'
          cases htok'
          exact absurd hver' hv

theorem checkSigs_cases (c : Crypto) (aid : List Nat) (apk : Nat) :
    ∀ rs : List RawReceipt,
      checkSigs c aid apk rs = .ok () ∨
      checkSigs c aid apk rs = .error .invalidData ∨
      checkSigs c aid apk rs = .error .invalidSignature := by
  intro rs
  induction rs with
  | nil => exact Or.inl rfl
  | cons r rest ih =>
    cases hp : c.parseCompact (r.rsig.take 64) with
    | none =>
      simp only [checkSigs, hp]
      simp
    | some tok =>
      by_cases hv : c.verify (c.keccak (aid ++ toBE 32 r.fees ++ r.rid)) tok apk = true
      · simp only [checkSigs, hp, if_pos hv]
        exact ih
      · simp only [checkSigs, hp, if_neg hv]
        simp

/-- C5: `verify_receipts` succeeds returning the saturating fee sum exactly
when the buffer length is a multiple of the 112-byte record size, the
receipt ids are strictly ascending across the whole buffer, every record's
signature parses and verifies against the claimed allocation public key
over the keccak digest of `allocation_id ++ total_fee ++ receipt_id`, and
the saturating fee sum is nonzero; each failing condition maps to the
claimed error (`InvalidData` for a bad length or an unparseable signature,
`UnorderedReceipts`, `InvalidSignature`, `NoValue`). -/
theorem verify_receipts_characterization (c : Crypto) (aid : List Nat)
    (apk : Nat) (data : List Nat) :
    (∀ f, verify_receipts c aid apk data = .ok f ↔
      (data.length % RECORD_SIZE = 0 ∧
       ascendBytes ((records data).map (fun r => r.rid)) = true ∧
       (∀ r ∈ records data, ∃ tok,
          c.parseCompact (r.rsig.take 64) = some tok ∧
          c.verify (c.keccak (aid ++ toBE 32 r.fees ++ r.rid)) tok apk = true) ∧
       satSum (records data) ≠ 0 ∧ f = satSum (records data))) ∧
    (data.length % RECORD_SIZE ≠ 0 →
      verify_receipts c aid apk data = .error .invalidData) ∧
    (data.length % RECORD_SIZE = 0 →
      ascendBytes ((records data).map (fun r => r.rid)) = false →
      verify_receipts c aid apk data = .error .unorderedReceipts) ∧
    (data.length % RECORD_SIZE = 0 →
      ascendBytes ((records data).map (fun r => r.rid)) = true →
      (¬ ∀ r ∈ records data, ∃ tok,
          c.parseCompact (r.rsig.take 64) = some tok ∧
          c.verify (c.keccak (aid ++ toBE 32 r.fees ++ r.rid)) tok apk = true) →
      (verify_receipts c aid apk data = .error .invalidData ∨
       verify_receipts c aid apk data = .error .invalidSignature)) ∧
    (data.length % RECORD_SIZE = 0 →
      ascendBytes ((records data).map (fun r => r.rid)) = true →
      (∀ r ∈ records data, ∃ tok,
          c.parseCompact (r.rsig.take 64) = some tok ∧
          c.verify (c.keccak (aid ++ toBE 32 r.fees ++ r.rid)) tok apk = true) →
      satSum (records data) = 0 →
      verify_receipts c aid apk data = .error .noValue) := by
  by_cases hm : data.length % RECORD_SIZE = 0
  · by_cases hasc : ascendBytes ((records data).map (fun r => r.rid)) = true
    · have hred : verify_receipts c aid apk data =
          match checkSigs c aid apk (records data) with
          | .error e => .error e
          | .ok () =>
            if satSum (records data) = 0 then .error .noValue
            else .ok (satSum (records data)) := by
        unfold verify_receipts
        rw [if_neg (by simp [hm]), if_neg (by simp [hasc])]
      rcases checkSigs_cases c aid apk (records data) with hcs | hcs | hcs
      · rw [hcs] at hred
        by_cases hz : satSum (records data) = 0
        · rw [if_pos hz] at hred
          refine ⟨?_, fun hm' => absurd hm hm', ?_, ?_, fun _ _ _ _ => hred⟩
          · intro f
            rw [hred]
            constructor
            · intro h
              exact absurd h (by simp)
            · rintro ⟨-, -, -, hz', -⟩
              exact absurd hz hz'
          · intro _ hasc'
            rw [hasc] at hasc'
            cases hasc'
          · intro _ _ hnot
            exact absurd ((checkSigs_ok_iff c aid apk (records data)).mp hcs) hnot
        · rw [if_neg hz] at hred
          refine ⟨?_, fun hm' => absurd hm hm', ?_, ?_, ?_⟩
          · intro f
            rw [hred]
            constructor
            · intro h
              have hf : satSum (records data) = f := by
                simpa using h
              exact ⟨hm, hasc,
                (checkSigs_ok_iff c aid apk (records data)).mp hcs, hz, hf.symm⟩
            · rintro ⟨-, -, -, -, rfl⟩
              rfl
          · intro _ hasc'
            rw [hasc] at hasc'
            cases hasc'
          · intro _ _ hnot
            exact absurd ((checkSigs_ok_iff c aid apk (records data)).mp hcs) hnot
          · intro _ _ _ hz'
            exact absurd hz' hz
      · rw [hcs] at hred
        have hnot : ¬ ∀ r ∈ records data, ∃ tok,
            c.parseCompact (r.rsig.take 64) = some tok ∧
            c.verify (c.keccak (aid ++ toBE 32 r.fees ++ r.rid)) tok apk = true := by
          intro hall
          rw [(checkSigs_ok_iff c aid apk (records data)).mpr hall] at hcs
          cases hcs
        refine ⟨?_, fun hm' => absurd hm hm', ?_, fun _ _ _ => Or.inl hred, ?_⟩
        · intro f
          rw [hred]
          constructor
          · intro h
            exact absurd h (by simp)
          · rintro ⟨-, -, hall, -, -⟩
            exact absurd hall hnot
        · intro _ hasc'
          rw [hasc] at hasc'
          cases hasc'
        · intro _ _ hall _
          exact absurd hall hnot
      · rw [hcs] at hred
        have hnot : ¬ ∀ r ∈ records data, ∃ tok,
            c.parseCompact (r.rsig.take 64) = some tok ∧
            c.verify (c.keccak (aid ++ toBE 32 r.fees ++ r.rid)) tok apk = true := by
          intro hall
          rw [(checkSigs_ok_iff c aid apk (records data)).mpr hall] at hcs
          cases hcs
        refine ⟨?_, fun hm' => absurd hm hm', ?_, fun _ _ _ => Or.inr hred, ?_⟩
        · intro f
          rw [hred]
          constructor
          · intro h
            exact absurd h (by simp)
          · rintro ⟨-, -, hall, -, -⟩
            exact absurd hall hnot
        · intro _ hasc'
          rw [hasc] at hasc'
          cases hasc'
        · intro _ _ hall _
          exact absurd hall hnot
    · have hasc' : ascendBytes ((records data).map (fun r => r.rid)) = false := by
        cases h : ascendBytes ((records data).map (fun r => r.rid))
        · rfl
        · exact absurd h hasc
      have hred : verify_receipts c aid apk data = .error .unorderedReceipts := by
        unfold verify_receipts
        rw [if_neg (by simp [hm]), if_pos hasc']
      refine ⟨?_, fun hm' => absurd hm hm', fun _ _ => hred, ?_, ?_⟩
      · intro f
        rw [hred]
        constructor
        · intro h
          exact absurd h (by simp)
        · rintro ⟨-, hasc'', -⟩
          rw [hasc'] at hasc''
          cases hasc''
      · intro _ hasc'' _
        exact absurd hasc'' hasc
      · intro _ hasc'' _ _
        exact absurd hasc'' hasc
  · have hred : verify_receipts c aid apk data = .error .invalidData := by
      unfold verify_receipts
      rw [if_pos hm]
    refine ⟨?_, fun _ => hred, fun hm' _ => absurd hm' hm,
      fun hm' _ _ => absurd hm' hm, fun hm' _ _ _ => absurd hm' hm⟩
    intro f
    rw [hred]
    constructor
    · intro h
      exact absurd h (by simp)
    · rintro ⟨hm', -⟩
      exact absurd hm' hm

theorem verify_receipts_characterization_witness :
    verify_receipts cTriv aidC 2 batchSingle = .ok 1 :=
  ((verify_receipts_characterization cTriv aidC 2 batchSingle).1 1).mpr
    ⟨by decide, by decide, fun r _ => ⟨0, rfl, rfl⟩, by decide, by decide⟩

/-! ## Commit signature shape (claim C6) -/

theorem normalizeRecovery_mem (x rv : Nat) (h : normalizeRecovery x = some rv) :
    rv = 27 ∨ rv = 28 := by
  unfold normalizeRecovery at h
  split at h
  · cases h
    exact Or.inl rfl
  · cases h
    exact Or.inr rfl
  · cases h
    exact Or.inl rfl
  · cases h
    exact Or.inr rfl
  · cases h

theorem commitSignedSlice_spec (vid : List Nat) (x y : Nat)
    (hv : vid.length = 32) :
    commitSignedSlice (vid ++ toLE 32 x ++ toLE 4 y) = toLE 32 x ++ toLE 4 y := by
  unfold commitSignedSlice
  rw [List.append_assoc, List.drop_left' hv,
    List.take_of_length_le (by simp)]

theorem commitFinish_ok (c : Crypto) (p : ReceiptPool) (i : Nat)
    (t2 : Transfer) (r : PooledReceipt) (fee : Nat) (out : List Nat)
    (p' : ReceiptPool) (hv : t2.vector_transfer_id.length = 32)
    (h : commitFinish c p i t2 r fee = some (.ok out, p')) :
    ∃ rv, (rv = 27 ∨ rv = 28) ∧
      normalizeRecovery (c.signRec t2.signer (c.sha3
        (toLE 32 (r.unlocked_payment + fee) ++ toLE 4 r.receipt_id))).2 =
        some rv ∧
      out = t2.vector_transfer_id ++ toLE 32 (r.unlocked_payment + fee) ++
        toLE 4 r.receipt_id ++
        (c.signRec t2.signer (c.sha3
          (toLE 32 (r.unlocked_payment + fee) ++ toLE 4 r.receipt_id))).1 ++
        [rv] ++ toLE 32 r.unlocked_payment := by
  simp only [commitFinish] at h
  by_cases hov : u256Size ≤ r.unlocked_payment + fee
  · rw [if_pos hov] at h
    cases h
  · rw [if_neg hov] at h
    rw [commitSignedSlice_spec _ _ _ hv] at h
    cases hn : normalizeRecovery (c.signRec t2.signer (c.sha3
        (toLE 32 (r.unlocked_payment + fee) ++ toLE 4 r.receipt_id))).2 with
    | none =>
      rw [hn] at h
      cases h
    | some rv =>
      rw [hn] at h
      simp only [Option.some.injEq, Prod.mk.injEq, Except.ok.injEq] at h
      obtain ⟨hout, -⟩ := h
      exact ⟨rv, normalizeRecovery_mem _ _ hn, rfl, hout.symm⟩

/-- C6 amended: every commitment produced by `commit` embeds a recoverable
signature with recovery indicator normalized to {27, 28}, produced with the
signer of the very transfer that `select_transfer` chose - but over the
SHA3-256 digest (not Keccak-256) of `total_fee_le ++ receipt_id_le` ONLY
(the 32-byte transfer id is excluded from the signed slice `dest[32..68]`);
that 36-byte signed string is never equal to the 67-byte string
`allocation_id ++ total_fee_be ++ receipt_id` over which the voucher
aggregator recomputes its digest, so the aggregator's recomputation does
not reproduce this message. -/
theorem commit_signature_shape (c : Crypto) (pick fee : Nat) (p : ReceiptPool)
    (out : List Nat) (p' : ReceiptPool)
    (hwf : ∀ t ∈ p.transfers, t.vector_transfer_id.length = 32)
    (h : commit c pick fee p = some (.ok out, p')) :
    ∃ i t0 unlocked rid rv,
      selectTransfer p.transfers fee = some (i, t0) ∧
      p.transfers.get? i = some t0 ∧
      t0.vector_transfer_id.length = 32 ∧ (rv = 27 ∨ rv = 28) ∧
      normalizeRecovery (c.signRec t0.signer (c.sha3
        (toLE 32 (unlocked + fee) ++ toLE 4 rid))).2 = some rv ∧
      out = t0.vector_transfer_id ++ toLE 32 (unlocked + fee) ++ toLE 4 rid ++
        (c.signRec t0.signer
          (c.sha3 (toLE 32 (unlocked + fee) ++ toLE 4 rid))).1 ++
        [rv] ++ toLE 32 unlocked ∧
      commitSignedSlice (t0.vector_transfer_id ++ toLE 32 (unlocked + fee) ++
        toLE 4 rid) = toLE 32 (unlocked + fee) ++ toLE 4 rid ∧
      ∀ (a idb : List Nat) (f : Nat), a.length = 20 → idb.length = 15 →
        toLE 32 (unlocked + fee) ++ toLE 4 rid ≠ a ++ toBE 32 f ++ idb := by
  have hmis : ∀ (z y : Nat) (a idb : List Nat) (f : Nat),
      a.length = 20 → idb.length = 15 →
      toLE 32 z ++ toLE 4 y ≠ a ++ toBE 32 f ++ idb := by
    intro z y a idb f ha hb heq
    have := congrArg List.length heq
    simp [ha, hb] at this
  unfold commit at h
  cases hsel : selectTransfer p.transfers fee with
  | none =>
    rw [hsel] at h
    simp at h
  | some it =>
    obtain ⟨i, t0⟩ := it
    rw [hsel] at h
    simp only [] at h
    have hgeti : p.transfers.get? i = some t0 := by
      obtain ⟨hmem', -, -⟩ := selectFrom_some fee p.transfers 0 none i t0 hsel
      rcases hmem' with hacc | ⟨m, hget, hj, -⟩
      · simp at hacc
      · have him : i = m := by omega
        rw [him]
        exact hget
    have hmem : t0 ∈ p.transfers := List.get?_mem hgeti
    have hvid : t0.vector_transfer_id.length = 32 := hwf t0 hmem
    by_cases hc : t0.receipt_cache.length = 0
    · rw [if_pos hc] at h
      by_cases hpr : t0.prev_receipt_id = u32Max
      · rw [if_pos hpr] at h
        simp at h
      · rw [if_neg hpr] at h
        obtain ⟨rv, hrv, hn, hout⟩ :=
          commitFinish_ok c p i _ _ fee out p' (by exact hvid) h
        exact ⟨i, t0, 0, t0.prev_receipt_id + 1, rv, rfl, hgeti,
          hvid, hrv, hn, hout, commitSignedSlice_spec _ _ _ hvid,
          hmis _ _⟩
    · rw [if_neg hc] at h
      cases hsw : swapRemove t0.receipt_cache (pick % t0.receipt_cache.length) with
      | none =>
        rw [hsw] at h
        cases h
      | some pr =>
        obtain ⟨r, rest⟩ := pr
        rw [hsw] at h
        obtain ⟨rv, hrv, hn, hout⟩ :=
          commitFinish_ok c p i _ _ fee out p' (by exact hvid) h
        exact ⟨i, t0, r.unlocked_payment, r.receipt_id, rv, rfl, hgeti,
          hvid, hrv, hn, hout, commitSignedSlice_spec _ _ _ hvid,
          hmis _ _⟩

/-- Concrete transfer and pool for the C6 counterexample. -/
def tC6 : Transfer :=
  { collateral := 10, prev_receipt_id := 0, receipt_cache := [], signer := 4,
    vector_transfer_id := List.replicate 32 5 }

def poolC6 : ReceiptPool := { transfers := [tC6] }

/-- `poolC6` after a successful `commit` of fee 3. -/
def poolC6After : ReceiptPool :=
  { transfers := [{ collateral := 7, prev_receipt_id := 1, receipt_cache := [],
                    signer := 4,
                    vector_transfer_id := List.replicate 32 5 }] }

/-- C6 counterexample: under the transparent `cTriv` instance (`sha3 = id`,
`signRec` returning its message) the commitment produced by `commit`
visibly embeds the signed message `total_fee_le ++ receipt_id_le` - which
is not (a digest of) `allocation_id || total_fee || receipt_id`: the signed
slice omits the transfer id entirely, and `keccak` (the hash the voucher
aggregator recomputes) of the full concatenation differs from it. -/
theorem commit_signature_digest_counterexample :
    commit cTriv 0 3 poolC6 =
      some (.ok (List.replicate 32 5 ++ toLE 32 3 ++ toLE 4 1 ++
        (toLE 32 3 ++ toLE 4 1) ++ [27] ++ toLE 32 0), poolC6After) ∧
    (toLE 32 3 ++ toLE 4 1) ≠
      cTriv.keccak (List.replicate 32 5 ++ toLE 32 3 ++ toLE 4 1) := by decide

theorem commit_signature_shape_witness :
    ∃ i t0 unlocked rid rv,
      selectTransfer poolC6.transfers 3 = some (i, t0) ∧
      poolC6.transfers.get? i = some t0 ∧
      t0.vector_transfer_id.length = 32 ∧ (rv = 27 ∨ rv = 28) ∧
      normalizeRecovery (cTriv.signRec t0.signer (cTriv.sha3
        (toLE 32 (unlocked + 3) ++ toLE 4 rid))).2 = some rv ∧
      (List.replicate 32 5 ++ toLE 32 3 ++ toLE 4 1 ++
        (toLE 32 3 ++ toLE 4 1) ++ [27] ++ toLE 32 0) =
        t0.vector_transfer_id ++ toLE 32 (unlocked + 3) ++ toLE 4 rid ++
        (cTriv.signRec t0.signer
          (cTriv.sha3 (toLE 32 (unlocked + 3) ++ toLE 4 rid))).1 ++
        [rv] ++ toLE 32 unlocked ∧
      commitSignedSlice (t0.vector_transfer_id ++ toLE 32 (unlocked + 3) ++
        toLE 4 rid) = toLE 32 (unlocked + 3) ++ toLE 4 rid ∧
      ∀ (a idb : List Nat) (f : Nat), a.length = 20 → idb.length = 15 →
        toLE 32 (unlocked + 3) ++ toLE 4 rid ≠ a ++ toBE 32 f ++ idb :=
  commit_signature_shape cTriv 0 3 poolC6
    (List.replicate 32 5 ++ toLE 32 3 ++ toLE 4 1 ++
      (toLE 32 3 ++ toLE 4 1) ++ [27] ++ toLE 32 0)
    poolC6After (by decide) (by decide)

/-! ## Partial-voucher combination machinery (claim C8) -/

theorem records_nil : records [] = [] := rfl

theorem records_append :
    ∀ (a b : List Nat), a.length % RECORD_SIZE = 0 →
      records (a ++ b) = records a ++ records b := by
  suffices H : ∀ (n : Nat) (a b : List Nat), a.length ≤ n →
      a.length % RECORD_SIZE = 0 →
      records (a ++ b) = records a ++ records b by
    intro a b h
    exact H a.length a b (Nat.le_refl _) h
  intro n
  induction n with
  | zero =>
    intro a b hle _
    have : a = [] := List.length_eq_zero.mp (Nat.le_zero.mp hle)
    subst this
    simp [records_nil]
  | succ n ih =>
    intro a b hle hmod
    cases ha : a.length with
    | zero =>
      have : a = [] := List.length_eq_zero.mp ha
      subst this
      simp [records_nil]
    | succ m =>
      have h112 : RECORD_SIZE ≤ a.length := by
        unfold RECORD_SIZE at *
        omega
      have h112' : (112 : Nat) ≤ a.length := h112
      rw [records_eq (a ++ b), records_eq a]
      have hne : ¬ (a.length = 0) := by omega
      have hne' : ¬ ((a ++ b).length = 0) := by
        simp only [List.length_append]
        omega
      rw [if_neg hne, if_neg hne']
      have htk32 : (a ++ b).take 32 = a.take 32 :=
        List.take_append_of_le_length (by omega)
      have hdr32 : (a ++ b).drop 32 = a.drop 32 ++ b :=
        List.drop_append_of_le_length (by omega)
      have htk15 : (a.drop 32 ++ b).take 15 = (a.drop 32).take 15 :=
        List.take_append_of_le_length (by simp; omega)
      have hdr47 : (a ++ b).drop 47 = a.drop 47 ++ b :=
        List.drop_append_of_le_length (by omega)
      have htk65 : (a.drop 47 ++ b).take 65 = (a.drop 47).take 65 :=
        List.take_append_of_le_length (by simp; omega)
      have hdr112 : (a ++ b).drop 112 = a.drop 112 ++ b :=
        List.drop_append_of_le_length (by omega)
      have htail : records ((a ++ b).drop 112) =
          records (a.drop 112) ++ records b := by
        rw [hdr112]
        refine ih (a.drop 112) b ?_ ?_
        · simp only [List.length_drop]
          omega
        · simp only [List.length_drop]
          unfold RECORD_SIZE at *
          omega
      rw [htk32, hdr32, htk15, hdr47, htk65, htail]
      simp

theorem flatten_mod (bs : List (List Nat))
    (h : ∀ b ∈ bs, b.length % RECORD_SIZE = 0) :
    bs.flatten.length % RECORD_SIZE = 0 := by
  induction bs with
  | nil => simp
  | cons b rest ih =>
    have hb := h b (List.mem_cons_self _ _)
    have hr := ih (fun v hv => h v (List.mem_cons_of_mem _ hv))
    simp only [List.flatten_cons, List.length_append]
    unfold RECORD_SIZE at *
    omega

theorem records_flatten (bs : List (List Nat))
    (h : ∀ b ∈ bs, b.length % RECORD_SIZE = 0) :
    records bs.flatten = (bs.map records).flatten := by
  induction bs with
  | nil => simp [records_nil]
  | cons b rest ih =>
    simp only [List.flatten_cons, List.map_cons]
    rw [records_append b rest.flatten (h b (List.mem_cons_self _ _)),
      ih (fun v hv => h v (List.mem_cons_of_mem _ hv))]

theorem satAdd_le (a b : Nat) : satAdd a b ≤ u256Max := by
  unfold satAdd
  omega

theorem satAdd_self (a : Nat) (h : a ≤ u256Max) : satAdd a 0 = a := by
  unfold satAdd
  omega

theorem satAdd_eq_zero (a b : Nat) : satAdd a b = 0 ↔ a = 0 ∧ b = 0 := by
  unfold satAdd u256Max
  constructor
  · intro h
    omega
  · intro h
    omega

theorem satAdd_assoc (a b c : Nat) :
    satAdd (satAdd a b) c = satAdd a (satAdd b c) := by
  unfold satAdd
  omega

theorem satAdd_zero_left (a : Nat) (h : a ≤ u256Max) : satAdd 0 a = a := by
  unfold satAdd
  omega

theorem satSum_foldl (rs : List RawReceipt) :
    ∀ s : Nat, s ≤ u256Max →
      rs.foldl (fun t r => satAdd t r.fees) s = satAdd s (satSum rs) := by
  induction rs with
  | nil =>
    intro s hs
    simp only [List.foldl_nil, satSum, satAdd_self s hs]
  | cons r rest ih =>
    intro s hs
    simp only [List.foldl_cons, satSum]
    rw [ih (satAdd s r.fees) (satAdd_le _ _),
      ih (satAdd 0 r.fees) (satAdd_le _ _), satAdd_assoc, satAdd_assoc,
      satAdd_zero_left _ (satAdd_le _ _)]

theorem satSum_le (rs : List RawReceipt) : satSum rs ≤ u256Max := by
  cases rs with
  | nil =>
    simp [satSum, u256Max]
  | cons r rest =>
    simp only [satSum, List.foldl_cons]
    rw [satSum_foldl rest _ (satAdd_le _ _)]
    exact satAdd_le _ _

theorem satSum_cons (r : RawReceipt) (rs : List RawReceipt) :
    satSum (r :: rs) = satAdd r.fees (satSum rs) := by
  have h0 : satAdd 0 r.fees = satAdd r.fees 0 := by
    unfold satAdd
    omega
  simp only [satSum, List.foldl_cons]
  rw [satSum_foldl rs (satAdd 0 r.fees) (satAdd_le _ _), h0, satAdd_assoc,
    satAdd_zero_left _ (satSum_le rs)]
  rfl

theorem satSum_append (rs ss : List RawReceipt) :
    satSum (rs ++ ss) = satAdd (satSum rs) (satSum ss) := by
  induction rs with
  | nil =>
    simp only [List.nil_append, satSum, List.foldl_nil]
    rw [show List.foldl (fun t r => satAdd t r.fees) 0 ss = satSum ss from rfl,
      satAdd_zero_left _ (satSum_le ss)]
  | cons r rest ih =>
    simp only [List.cons_append]
    rw [satSum_cons, satSum_cons, ih, satAdd_assoc]

theorem pvSum_foldl (pvs : List PartialVoucher) :
    ∀ s : Nat, s ≤ u256Max →
      pvs.foldl (fun t pv => satAdd t pv.voucher.fees) s =
        satAdd s (pvSum pvs) := by
  induction pvs with
  | nil =>
    intro s hs
    simp only [List.foldl_nil, pvSum, satAdd_self s hs]
  | cons pv rest ih =>
    intro s hs
    simp only [List.foldl_cons, pvSum]
    rw [ih (satAdd s pv.voucher.fees) (satAdd_le _ _),
      ih (satAdd 0 pv.voucher.fees) (satAdd_le _ _), satAdd_assoc,
      satAdd_assoc, satAdd_zero_left _ (satAdd_le _ _)]

theorem pvSum_le (pvs : List PartialVoucher) : pvSum pvs ≤ u256Max := by
  cases pvs with
  | nil =>
    simp [pvSum, u256Max]
  | cons pv rest =>
    simp only [pvSum, List.foldl_cons]
    rw [pvSum_foldl rest _ (satAdd_le _ _)]
    exact satAdd_le _ _

theorem pvSum_cons (pv : PartialVoucher) (pvs : List PartialVoucher) :
    pvSum (pv :: pvs) = satAdd pv.voucher.fees (pvSum pvs) := by
  have h0 : satAdd 0 pv.voucher.fees = satAdd pv.voucher.fees 0 := by
    unfold satAdd
    omega
  simp only [pvSum, List.foldl_cons]
  rw [pvSum_foldl pvs (satAdd 0 pv.voucher.fees) (satAdd_le _ _), h0,
    satAdd_assoc, satAdd_zero_left _ (pvSum_le pvs)]
  rfl

theorem bytesLt_trans :
    ∀ (a b c : List Nat), bytesLt a b = true → bytesLt b c = true →
      bytesLt a c = true := by
  intro a
  induction a with
  | nil =>
    intro b c hab hbc
    cases b with
    | nil => simp [bytesLt] at hab
    | cons y ys =>
      cases c with
      | nil => simp [bytesLt] at hbc
      | cons z zs => simp [bytesLt]
  | cons x xs ih =>
    intro b c hab hbc
    cases b with
    | nil => simp [bytesLt] at hab
    | cons y ys =>
      cases c with
      | nil => simp [bytesLt] at hbc
      | cons z zs =>
        simp only [bytesLt, Bool.or_eq_true, Bool.and_eq_true,
          decide_eq_true_eq, beq_iff_eq] at hab hbc ⊢
        rcases hab with h1 | ⟨he1, h1'⟩ <;> rcases hbc with h2 | ⟨he2, h2'⟩
        · exact Or.inl (by omega)
        · exact Or.inl (by omega)
        · exact Or.inl (by omega)
        · exact Or.inr ⟨by omega, ih ys zs h1' h2'⟩

theorem ascendBytes_iff_chain (l : List (List Nat)) :
    ascendBytes l = true ↔
      List.Chain' (fun a b => bytesLt a b = true) l := by
  induction l with
  | nil => simp [ascendBytes]
  | cons a rest ih =>
    cases rest with
    | nil => simp [ascendBytes]
    | cons b rest' =>
      rw [ascendBytes, Bool.and_eq_true, ih, List.chain'_cons]

theorem chain_head_getLast :
    ∀ (l : List (List Nat)) (x y : List Nat),
      List.Chain' (fun a b => bytesLt a b = true) (x :: l) →
      l.getLast? = some y → bytesLt x y = true := by
  intro l
  induction l with
  | nil =>
    intro x y _ hy
    cases hy
  | cons z l' ih =>
    intro x y hch hy
    obtain ⟨h1, h2⟩ := List.chain'_cons.mp hch
    cases hl' : l' with
    | nil =>
      subst hl'
      have : z = y := by simpa using hy
      subst this
      exact h1
    | cons w l'' =>
      subst hl'
      have hy' : (w :: l'').getLast? = some y := by
        rw [← List.getLast?_cons_cons]
        exact hy
      have hzy : bytesLt z y = true := ih z y h2 hy'
      exact bytesLt_trans x z y h1 hzy

theorem chain_limits :
    ∀ (Ls : List (List (List Nat))) (pvs : List PartialVoucher),
      List.Forall₂ (fun L pv => L.head? = some pv.receipt_id_min ∧
        L.getLast? = some pv.receipt_id_max ∧ 2 ≤ L.length) Ls pvs →
      List.Chain' (fun a b => bytesLt a b = true) Ls.flatten →
      List.Chain' (fun a b => bytesLt a b = true) (pvLimits pvs) := by
  intro Ls pvs hf
  induction hf with
  | nil =>
    intro _
    simp [pvLimits]
  | @cons L pv Ls' pvs' hpr hrest ih =>
    intro hch
    obtain ⟨hhd, hlast, hlen⟩ := hpr
    rw [List.flatten_cons, List.chain'_append] at hch
    obtain ⟨hchL, hchRest, hbound⟩ := hch
    have hminmax : bytesLt pv.receipt_id_min pv.receipt_id_max = true := by
      cases L with
      | nil => cases hhd
      | cons a tail =>
        have ha : a = pv.receipt_id_min := by simpa using hhd
        subst ha
        cases tail with
        | nil => simp at hlen
        | cons w t'' =>
          refine chain_head_getLast (w :: t'') pv.receipt_id_min
            pv.receipt_id_max hchL ?_
          rw [← List.getLast?_cons_cons]
          exact hlast
    have hlim : pvLimits (pv :: pvs') =
        pv.receipt_id_min :: pv.receipt_id_max :: pvLimits pvs' := by
      simp [pvLimits]
    rw [hlim]
    cases hrest with
    | nil =>
      simp only [pvLimits, List.flatMap_nil]
      exact List.chain'_cons.mpr ⟨hminmax, List.chain'_singleton _⟩
    | @cons L' pv' Ls'' pvs'' hpr' hrest' =>
      have hlim' : pvLimits (pv' :: pvs'') =
          pv'.receipt_id_min :: pv'.receipt_id_max :: pvLimits pvs'' := by
        simp [pvLimits]
      have hchRest' : List.Chain' (fun a b => bytesLt a b = true)
          (pvLimits (pv' :: pvs'')) := ih hchRest
      have hheadflat : (List.flatten (L' :: Ls'')).head? =
          some pv'.receipt_id_min := by
        rw [List.flatten_cons, List.head?_append, hpr'.1]
        rfl
      have hboundary : bytesLt pv.receipt_id_max pv'.receipt_id_min = true := by
        refine hbound pv.receipt_id_max ?_ pv'.receipt_id_min ?_
        · simp [hlast]
        · exact Option.mem_def.mpr hheadflat
      refine List.chain'_cons.mpr ⟨hminmax, ?_⟩
      rw [hlim'] at hchRest'
      rw [hlim']
      exact List.chain'_cons.mpr ⟨hboundary, hchRest'⟩

theorem verify_ok_inv (c : Crypto) (aid : List Nat) (apk : Nat)
    (data : List Nat) (f : Nat)
    (h : verify_receipts c aid apk data = .ok f) :
    data.length % RECORD_SIZE = 0 ∧
    ascendBytes ((records data).map (fun r => r.rid)) = true ∧
    checkSigs c aid apk (records data) = .ok () ∧
    satSum (records data) ≠ 0 ∧ f = satSum (records data) := by
  unfold verify_receipts at h
  by_cases hm : data.length % RECORD_SIZE = 0
  · rw [if_neg (by simp [hm])] at h
    by_cases hasc : ascendBytes ((records data).map (fun r => r.rid)) = true
    · rw [if_neg (by simp [hasc])] at h
      cases hcs : checkSigs c aid apk (records data) with
      | error e =>
        rw [hcs] at h
        simp at h
      | ok u =>
        obtain ⟨⟩ := u
        rw [hcs] at h
        by_cases hz : satSum (records data) = 0
        · rw [if_pos hz] at h
          simp at h
        · rw [if_neg hz] at h
          simp only [Except.ok.injEq] at h
          exact ⟨hm, hasc, rfl, hz, h.symm⟩
    · have hasc' : ascendBytes ((records data).map (fun r => r.rid)) = false := by
        cases h' : ascendBytes ((records data).map (fun r => r.rid))
        · rfl
        · exact absurd h' hasc
      rw [if_pos hasc'] at h
      simp at h
  · rw [if_pos hm] at h
    simp at h

theorem verify_ok_of (c : Crypto) (aid : List Nat) (apk : Nat)
    (data : List Nat) (hm : data.length % RECORD_SIZE = 0)
    (hasc : ascendBytes ((records data).map (fun r => r.rid)) = true)
    (hcs : checkSigs c aid apk (records data) = .ok ())
    (hz : satSum (records data) ≠ 0) :
    verify_receipts c aid apk data = .ok (satSum (records data)) := by
  unfold verify_receipts
  rw [if_neg (by simp [hm]), if_neg (by simp [hasc]), hcs]
  simp [hz]

theorem r2pv_ok_inv (c : Crypto) (aid : List Nat) (apk vsk : Nat)
    (data : List Nat) (pv : PartialVoucher)
    (h : receipts_to_partial_voucher c aid apk vsk data = .ok pv) :
    ∃ first last,
      (records data).head? = some first ∧
      (records data).getLast? = some last ∧
      pv.receipt_id_min = first.rid ∧ pv.receipt_id_max = last.rid ∧
      pv.voucher.fees = satSum (records data) ∧
      pv.voucher.signature = c.sign vsk (aid ++
        toBE 32 (satSum (records data)) ++ first.rid ++ last.rid) ∧
      data.length % RECORD_SIZE = 0 ∧
      ascendBytes ((records data).map (fun r => r.rid)) = true ∧
      checkSigs c aid apk (records data) = .ok () ∧
      satSum (records data) ≠ 0 := by
  unfold receipts_to_partial_voucher at h
  cases hv : verify_receipts c aid apk data with
  | error e =>
    rw [hv] at h
    simp at h
  | ok fees =>
    rw [hv] at h
    obtain ⟨hm, hasc, hcs, hz, hf⟩ := verify_ok_inv c aid apk data fees hv
    cases hh : (records data).head? with
    | none =>
      rw [hh] at h
      cases hl : (records data).getLast? with
      | none =>
        rw [hl] at h
        simp at h
      | some last =>
        rw [hl] at h
        simp at h
    | some first =>
      rw [hh] at h
      cases hl : (records data).getLast? with
      | none =>
        rw [hl] at h
        simp at h
      | some last =>
        rw [hl] at h
        simp only [Except.ok.injEq] at h
        subst h
        refine ⟨first, last, rfl, rfl, rfl, rfl, hf, ?_, hm, hasc, hcs, hz⟩
        rw [hf]

theorem checkPartialSigs_ok_iff (c : Crypto) (aid : List Nat) (vpk : Nat) :
    ∀ pvs : List PartialVoucher,
      checkPartialSigs c aid vpk pvs = .ok () ↔
        ∀ pv ∈ pvs, ∃ tok,
          c.parseCompact (pv.voucher.signature.take 64) = some tok ∧
          c.verify (c.keccak (aid ++ toBE 32 pv.voucher.fees ++
            pv.receipt_id_min ++ pv.receipt_id_max)) tok vpk = true := by
  intro pvs
  induction pvs with
  | nil => simp [checkPartialSigs]
  | cons pv rest ih =>
    cases hp : c.parseCompact (pv.voucher.signature.take 64) with
    | none =>
      simp only [checkPartialSigs, hp]
      constructor
      · intro h
        exact absurd h (by simp)
      · intro h
        obtain ⟨tok, htok, -⟩ := h pv (List.mem_cons_self _ _)
        rw [hp] at htok
        cases htok
    | some tok =>
      by_cases hv : c.verify (c.keccak (aid ++ toBE 32 pv.voucher.fees ++
          pv.receipt_id_min ++ pv.receipt_id_max)) tok vpk = true
      · simp only [checkPartialSigs, hp, if_pos hv, ih]
        constructor
        · intro h v hv'
          rcases List.mem_cons.mp hv' with rfl | hv''
          · exact ⟨tok, hp, hv⟩
          · exact h v hv''
        · intro h v hv'
          exact h v (List.mem_cons_of_mem _ hv')
      · simp only [checkPartialSigs, hp, if_neg hv]
        constructor
        · intro h
          exact absurd h (by simp)
        · intro h
          obtain ⟨tok', htok', hver'⟩ := h pv (List.mem_cons_self _ _)
          rw [hp] at htok'
          cases htok'
          exact absurd hver' hv

theorem combine_ok_of (c : Crypto) (aid : List Nat) (vsk : Nat)
    (pvs : List PartialVoucher) (hne : ¬ (pvs.length = 0))
    (hasc : ascendBytes (pvLimits pvs) = true)
    (hcs : checkPartialSigs c aid (c.pubOf vsk) pvs = .ok ())
    (hz : pvSum pvs ≠ 0) :
    combine_partial_vouchers c aid vsk pvs =
      .ok { allocation_id := aid, fees := pvSum pvs,
            signature := c.sign vsk (aid ++ toBE 32 (pvSum pvs)) } := by
  unfold combine_partial_vouchers
  rw [if_neg hne, if_neg (by simp [hasc]), hcs]
  simp [hz]

theorem batches_agg (c : Crypto) (aid : List Nat) (apk vsk : Nat) :
    ∀ (batches : List (List Nat)) (pvs : List PartialVoucher),
      List.Forall₂ (fun b pv =>
        receipts_to_partial_voucher c aid apk vsk b = .ok pv) batches pvs →
      (∀ b ∈ batches, 2 ≤ (records b).length) →
      (∀ b ∈ batches, b.length % RECORD_SIZE = 0) ∧
      checkSigs c aid apk (records batches.flatten) = .ok () ∧
      pvSum pvs = satSum (records batches.flatten) ∧
      (∀ pv ∈ pvs, pv.voucher.fees ≠ 0 ∧
        pv.voucher.signature = c.sign vsk (aid ++ toBE 32 pv.voucher.fees ++
          pv.receipt_id_min ++ pv.receipt_id_max)) ∧
      List.Forall₂ (fun b pv =>
        ((records b).map (fun r => r.rid)).head? = some pv.receipt_id_min ∧
        ((records b).map (fun r => r.rid)).getLast? = some pv.receipt_id_max ∧
        2 ≤ ((records b).map (fun r => r.rid)).length) batches pvs := by
  intro batches pvs hf
  induction hf with
  | nil =>
    intro _
    refine ⟨by simp, by simp [records_nil, checkSigs], ?_, by simp,
      List.Forall₂.nil⟩
    simp [records_nil, pvSum, satSum]
  | @cons b pv bs pvs' hbp hrest ih =>
    intro hbig
    obtain ⟨first, last, hh, hl, hmin, hmax, hfees, hsig, hm, hasc, hcs, hz⟩ :=
      r2pv_ok_inv c aid apk vsk b pv hbp
    obtain ⟨ihm, ihcs, ihsum, ihpv, ihf2⟩ :=
      ih (fun v hv => hbig v (List.mem_cons_of_mem _ hv))
    have hrecapp : records ((b :: bs).flatten) =
        records b ++ records bs.flatten := by
      rw [List.flatten_cons]
      exact records_append b bs.flatten hm
    refine ⟨?_, ?_, ?_, ?_, ?_⟩
    · intro v hv
      rcases List.mem_cons.mp hv with rfl | hv'
      · exact hm
      · exact ihm v hv'
    · rw [hrecapp, checkSigs_ok_iff, List.forall_mem_append]
      exact ⟨(checkSigs_ok_iff c aid apk (records b)).mp hcs,
        (checkSigs_ok_iff c aid apk (records bs.flatten)).mp ihcs⟩
    · rw [pvSum_cons, hrecapp, satSum_append, hfees, ihsum]
    · intro v hv
      rcases List.mem_cons.mp hv with rfl | hv'
      · refine ⟨by rw [hfees]; exact hz, ?_⟩
        rw [hfees, hmin, hmax]
        exact hsig
      · exact ihpv v hv'
    · refine List.Forall₂.cons ⟨?_, ?_, ?_⟩ ihf2
      · rw [List.head?_map, hh, hmin]
        rfl
      · rw [List.getLast?_map, hl, hmax]
        rfl
      · simp only [List.length_map]
        exact hbig b (List.mem_cons_self _ _)

/-- C8 amended: for receipts partitioned into disjoint, ascending,
contiguous batches OF AT LEAST TWO RECEIPTS EACH, combining the partial
vouchers obtained from `receipts_to_partial_voucher` on each batch yields
exactly the Voucher `receipts_to_voucher` produces on the concatenation:
same `total_fee` (the saturating sum of all record fees) and - the
signature scheme being a deterministic function - an identical signature.
(Single-receipt batches are excluded: the strict range check of
`combine_partial_vouchers` rejects them, see the counterexample.)  The
signature-correctness hypothesis states that the verifier accepts what the
deterministic signer signed. -/
theorem combine_refines_voucher (c : Crypto) (aid : List Nat) (apk vsk : Nat)
    (batches : List (List Nat)) (pvs : List PartialVoucher)
    (hcrypt : ∀ sk m, ∃ tok,
      c.parseCompact ((c.sign sk m).take 64) = some tok ∧
      c.verify (c.keccak m) tok (c.pubOf sk) = true)
    (hne : batches ≠ [])
    (hpv : List.Forall₂ (fun b pv =>
      receipts_to_partial_voucher c aid apk vsk b = .ok pv) batches pvs)
    (hbig : ∀ b ∈ batches, 2 ≤ (records b).length)
    (hasc : ascendBytes ((records batches.flatten).map (fun r => r.rid)) = true) :
    combine_partial_vouchers c aid vsk pvs =
      receipts_to_voucher c aid apk vsk batches.flatten ∧
    receipts_to_voucher c aid apk vsk batches.flatten =
      .ok { allocation_id := aid, fees := satSum (records batches.flatten),
            signature := c.sign vsk
              (aid ++ toBE 32 (satSum (records batches.flatten))) } := by
  obtain ⟨hmods, hcsflat, hsum, hpvfees, hf2⟩ :=
    batches_agg c aid apk vsk batches pvs hpv hbig
  have hpvs_ne : pvs ≠ [] := by
    intro hnil
    have := hpv.length_eq
    rw [hnil] at this
    simp at this
    exact hne this
  have hvz : satSum (records batches.flatten) ≠ 0 := by
    rw [← hsum]
    cases pvs with
    | nil => exact absurd rfl hpvs_ne
    | cons pv rest =>
      rw [pvSum_cons]
      intro h0
      obtain ⟨hz1, -⟩ := (satAdd_eq_zero _ _).mp h0
      exact (hpvfees pv (List.mem_cons_self _ _)).1 hz1
  have hflatmod := flatten_mod batches hmods
  have hveq : receipts_to_voucher c aid apk vsk batches.flatten =
      .ok { allocation_id := aid, fees := satSum (records batches.flatten),
            signature := c.sign vsk
              (aid ++ toBE 32 (satSum (records batches.flatten))) } := by
    unfold receipts_to_voucher
    rw [verify_ok_of c aid apk batches.flatten hflatmod hasc hcsflat hvz]
  have hmapflat :
      (batches.map (fun b => (records b).map (fun r => r.rid))).flatten =
        (records batches.flatten).map (fun r => r.rid) := by
    rw [records_flatten batches hmods, List.map_flatten, List.map_map]
    rfl
  have hasc_lim : ascendBytes (pvLimits pvs) = true := by
    rw [ascendBytes_iff_chain]
    refine chain_limits
      (batches.map (fun b => (records b).map (fun r => r.rid))) pvs ?_ ?_
    · rw [List.forall₂_map_left_iff]
      exact hf2
    · rw [hmapflat]
      exact (ascendBytes_iff_chain _).mp hasc
  have hcps : checkPartialSigs c aid (c.pubOf vsk) pvs = .ok () := by
    rw [checkPartialSigs_ok_iff]
    intro pv hv
    obtain ⟨-, hsig⟩ := hpvfees pv hv
    obtain ⟨tok, htok, hver⟩ := hcrypt vsk (aid ++ toBE 32 pv.voucher.fees ++
      pv.receipt_id_min ++ pv.receipt_id_max)
    refine ⟨tok, ?_, hver⟩
    rw [hsig]
    exact htok
  have hpz : pvSum pvs ≠ 0 := by
    rw [hsum]
    exact hvz
  have hlen0 : ¬ (pvs.length = 0) := by
    intro h0
    exact hpvs_ne (List.length_eq_zero.mp h0)
  have hceq := combine_ok_of c aid vsk pvs hlen0 hasc_lim hcps hpz
  refine ⟨?_, hveq⟩
  rw [hceq, hveq, hsum]

/-- 15-byte receipt id whose last byte is `k`. -/
def rid15 (k : Nat) : List Nat := List.replicate 14 0 ++ [k]

/-- A 112-byte receipt record with fee 1, receipt id `rid15 k` and an
all-zero signature. -/
def recC (k : Nat) : List Nat :=
  toBE 32 1 ++ rid15 k ++ List.replicate 65 0

def batch1C : List Nat := recC 1 ++ recC 2

def batch2C : List Nat := recC 3 ++ recC 4

/-- The partial voucher `receipts_to_partial_voucher` yields on `batch1C`
under `cTriv`. -/
def pv1C : PartialVoucher :=
  { voucher := { allocation_id := aidC, fees := 2,
                 signature := aidC ++ toBE 32 2 ++ rid15 1 ++ rid15 2 },
    receipt_id_min := rid15 1, receipt_id_max := rid15 2 }

/-- The partial voucher `receipts_to_partial_voucher` yields on `batch2C`
under `cTriv`. -/
def pv2C : PartialVoucher :=
  { voucher := { allocation_id := aidC, fees := 2,
                 signature := aidC ++ toBE 32 2 ++ rid15 3 ++ rid15 4 },
    receipt_id_min := rid15 3, receipt_id_max := rid15 4 }

theorem combine_refines_voucher_witness :
    combine_partial_vouchers cTriv aidC 3 [pv1C, pv2C] =
      receipts_to_voucher cTriv aidC 2 3 ([batch1C, batch2C].flatten) :=
  (combine_refines_voucher cTriv aidC 2 3 [batch1C, batch2C] [pv1C, pv2C]
    (fun sk m => ⟨0, rfl, rfl⟩) (by decide)
    (List.Forall₂.cons (by decide)
      (List.Forall₂.cons (by decide) List.Forall₂.nil))
    (by decide) (by decide)).1
